import Mathlib

/-!
# Verification development for `dnn.cpp`

Shallow embedding of the letterbox geometry, tensor packing, detection decode and
suppression pipeline of `src/src/dnn.cpp`.

Modelling conventions.

* `int` / `uint32_t` quantities are `Int` / `Nat`.  The one `int` subtraction whose range
  matters, the size difference in `letterbox`, wraps at 32 bits (`wrap_int`).
* In `letterbox` binary floating point is modelled bit for bit: the value stored in a `float`
  is rounded to 24 significant bits and every `double` operation to 53, ties to even
  (`to_float`, `to_double`); the literal `0.1` is its `double` value.
* Elsewhere `float` / `double` quantities are exact rationals (`ℚ`).  Comparisons of finite
  floats are exact under this reading; arithmetic is exact whenever operands and results are
  dyadic numbers of at most 24 significant bits.  That holds for the geometry and decode
  evaluations below, apart from the literal `0.1`, whose binary rounding error is below
  `1e-8` and is never within that distance of a rounding boundary there.  The packing
  evaluation scales by `1/255`; the samples it compares come from the byte 0 and differ by
  `1/4`.
* A `float *` is a total function from offsets to values.
* An image is reduced to what each function reads from it: its size for the geometry, its
  pixel list for the packing.
-/

namespace dnn

/-! ## Numeric helpers -/

/-- The C library `std::round`: nearest integer, halfway cases away from zero. -/
def round (q : ℚ) : Int :=
  if 0 ≤ q then ⌊q + 1 / 2⌋ else -⌊-q + 1 / 2⌋

/-- The conversion `static_cast<int>` of a floating value: truncation toward zero. -/
def static_cast_int (q : ℚ) : Int :=
  if 0 ≤ q then ⌊q⌋ else -⌊-q⌋

/-- Nearest integer, a tie going to the even neighbour. -/
def roundTiesEven (x : ℚ) : Int :=
  if x - ⌊x⌋ < 1 / 2 then ⌊x⌋
  else if 1 / 2 < x - ⌊x⌋ then ⌊x⌋ + 1
  else if ⌊x⌋ % 2 = 0 then ⌊x⌋
  else ⌊x⌋ + 1

/-- Nearest binary floating-point value with `p` significant bits, ties to even (the IEEE 754
default rounding).  With `2 ^ e ≤ |q| < 2 ^ (e + 1)` the representable values around `q` are
the multiples of `2 ^ (e - p + 1)`.  The exponent range is not modelled: the magnitudes that
arise from `int` sizes neither overflow nor reach the subnormal range. -/
def roundToPrecision (p : Nat) (q : ℚ) : ℚ :=
  if q = 0 then 0
  else (roundTiesEven (q / 2 ^ (Int.log 2 |q| - p + 1)) : ℚ) * 2 ^ (Int.log 2 |q| - p + 1)

/-- Value held by a `float` (binary32, 24 significant bits) assigned `q`. -/
def to_float (q : ℚ) : ℚ := roundToPrecision 24 q

/-- Result of a `double` (binary64, 53 significant bits) operation whose exact value is `q`. -/
def to_double (q : ℚ) : ℚ := roundToPrecision 53 q

/-- A 32-bit `int` result: two's-complement wrap-around of the exact value.  (Signed overflow
is undefined in C++; no theorem below leaves the range.) -/
def wrap_int (z : Int) : Int := (z + 2 ^ 31) % 2 ^ 32 - 2 ^ 31

/-! ## OpenCV value types -/

/-- `cv::Size`: constructed as `Size(width, height)`. -/
structure Size where
  width : Int
  height : Int
  deriving DecidableEq, Repr

/-- `cv::Point`. -/
structure Point where
  x : Int
  y : Int
  deriving DecidableEq, Repr

/-- `cv::Rect`: top-left corner plus extent. -/
structure Rect where
  x : Int
  y : Int
  width : Int
  height : Int
  deriving DecidableEq, Repr

/-- The constructor `cv::Rect(pt1, pt2)`: the corner is the component-wise minimum and the
extent the distance to the component-wise maximum. -/
def Rect.ofPoints (pt1 pt2 : Point) : Rect :=
  { x := min pt1.x pt2.x
    y := min pt1.y pt2.y
    width := max pt1.x pt2.x - min pt1.x pt2.x
    height := max pt1.y pt2.y - min pt1.y pt2.y }

instance : Inhabited Rect := ⟨⟨0, 0, 0, 0⟩⟩

/-- Right edge of a rectangle. -/
def Rect.right (r : Rect) : Int := r.x + r.width

/-- Bottom edge of a rectangle. -/
def Rect.bottom (r : Rect) : Int := r.y + r.height

/-- `dnn::Object`: a rectangle with its confidence. -/
structure Object where
  rect : Rect
  conf : ℚ
  deriving DecidableEq, Repr

/-! ## `dnn::letterbox` -/

/-- The four margins handed to `cv::cuda::copyMakeBorder`. -/
structure Border where
  top : Int
  bottom : Int
  left : Int
  right : Int
  deriving DecidableEq, Repr

/-- Margins computed by `dnn::letterbox` (lines 7-12).  `(target - new) / 2.` is an `int`
subtraction followed by a `double` division whose result is stored in the `float`
`padh` / `padw`; `padh - 0.1` and `padh + 0.1` are `double` operations on the promoted
`float` and the `double` literal `0.1`; `std::round` of the result is converted to `int`. -/
def letterbox_border (new_size target_size : Size) : Border :=
  let padh : ℚ :=
    to_float (to_double ((wrap_int (target_size.height - new_size.height) : ℚ) / 2))
  let padw : ℚ :=
    to_float (to_double ((wrap_int (target_size.width - new_size.width) : ℚ) / 2))
  { top := round (to_double (padh - to_double (1 / 10)))
    bottom := round (to_double (padh + to_double (1 / 10)))
    left := round (to_double (padw - to_double (1 / 10)))
    right := round (to_double (padw + to_double (1 / 10))) }

/-- Size of the image `dnn::letterbox` leaves in `output_image`: `cv::cuda::resize` produces
`new_size`, `cv::cuda::copyMakeBorder` adds the margins on each side. -/
def letterbox (new_size target_size : Size) : Size :=
  let b := letterbox_border new_size target_size
  { width := new_size.width + b.left + b.right
    height := new_size.height + b.top + b.bottom }

/-! ## `dnn::blob_from_gpumat` -/

/-- One pixel of a `CV_8UC3` image: its three 8-bit samples in memory order. -/
structure Vec3b where
  c0 : Nat
  c1 : Nat
  c2 : Nat
  deriving DecidableEq, Repr

/-- Sample of channel `c` of a pixel. -/
def Vec3b.channel (p : Vec3b) : Nat → Nat
  | 0 => p.c0
  | 1 => p.c1
  | _ => p.c2

/-- A 3-channel 8-bit `cv::cuda::GpuMat`: `data` lists the `rows * cols` pixels row by row. -/
structure GpuMat where
  rows : Nat
  cols : Nat
  data : List Vec3b
  deriving DecidableEq, Repr

/-- `std::array<float, 3>`, also the first three entries of a `cv::Scalar`. -/
structure Array3 where
  v0 : ℚ
  v1 : ℚ
  v2 : ℚ
  deriving DecidableEq, Repr

/-- Entry `c` of the array. -/
def Array3.get (a : Array3) : Nat → ℚ
  | 0 => a.v0
  | 1 => a.v1
  | _ => a.v2

/-- `cv::cuda::cvtColor(.., cv::COLOR_BGR2RGB)`: exchanges samples 0 and 2 of every pixel. -/
def cvtColor_BGR2RGB (m : GpuMat) : GpuMat :=
  { m with data := m.data.map fun p => ⟨p.c2, p.c1, p.c0⟩ }

/-- Channel plane `c` of an image, row by row. -/
def GpuMat.plane (m : GpuMat) (c : Nat) : List Nat :=
  m.data.map fun p => p.channel c

/-- Store `vals` into `buf` starting at offset `off`. -/
def writeAt (buf : List Nat) (off : Nat) (vals : List Nat) : List Nat :=
  buf.take off ++ vals ++ buf.drop (off + vals.length)

/-- `cv::cuda::split(input, rgb)` where `rgb[c]` is the single-channel view of `blob`'s bytes
that starts at `base + c * continuous_length`: plane `c` of `input` is stored there. -/
def split_into (blob : List Nat) (base continuous_length : Nat) (input : GpuMat) : List Nat :=
  writeAt
    (writeAt (writeAt blob base (input.plane 0)) (base + continuous_length) (input.plane 1))
    (base + continuous_length * 2) (input.plane 2)

/-- `blob.convertTo(blob, CV_32FC3, alpha)`: every sample becomes a float, times `alpha`. -/
def convertTo (blob : List Nat) (alpha : ℚ) : List ℚ :=
  blob.map fun b => (b : ℚ) * alpha

/-- Apply `f` to every sample of a 3-channel matrix stored as a flat list starting at flat
index `k`, passing the channel the matrix type assigns to that sample: consecutive samples
form one pixel, so the sample at flat index `k` has channel `k % 3`. -/
def mapChannels (f : Nat → ℚ → ℚ) : Nat → List ℚ → List ℚ
  | _, [] => []
  | k, v :: vs => f (k % 3) v :: mapChannels f (k + 1) vs

/-- `cv::cuda::subtract(blob, cv::Scalar(s0, s1, s2), blob)` on a `CV_32FC3` matrix. -/
def subtract (blob : List ℚ) (s : Array3) : List ℚ :=
  mapChannels (fun c v => v - s.get c) 0 blob

/-- `cv::cuda::divide(blob, cv::Scalar(s0, s1, s2), blob, 1)` on a `CV_32FC3` matrix. -/
def divide (blob : List ℚ) (s : Array3) : List ℚ :=
  mapChannels (fun c v => 1 * v / s.get c) 0 blob

/-- Single-image `dnn::blob_from_gpumat` (lines 17-42); the result is the flat float content
of the returned `1 x rows*cols` `CV_32FC3` matrix. -/
def blob_from_gpumat (input : GpuMat) (std mean : Array3) (swapBR normalize : Bool) :
    List ℚ :=
  let input := if swapBR then cvtColor_BGR2RGB input else input
  let blob : List Nat := List.replicate (3 * (input.rows * input.cols)) 0
  let continuous_length := input.rows * input.cols
  let blob := split_into blob 0 continuous_length input
  let blob := if normalize then convertTo blob (1 / 255) else convertTo blob 1
  let blob := subtract blob mean
  divide blob std

/-- Batch `dnn::blob_from_gpumat` (lines 44-80); plane sizes are those of `inputs[0]`. -/
def blob_from_gpumats (inputs : List GpuMat) (std mean : Array3) (swapBR normalize : Bool) :
    List ℚ :=
  let inputs := if swapBR then inputs.map cvtColor_BGR2RGB else inputs
  let rows0 := (inputs.headD ⟨0, 0, []⟩).rows
  let cols0 := (inputs.headD ⟨0, 0, []⟩).cols
  let blob : List Nat := List.replicate (3 * (rows0 * cols0 * inputs.length)) 0
  let continuous_length := rows0 * cols0
  let blob := (List.range inputs.length).foldl
    (fun blob i =>
      split_into blob (continuous_length * 3 * i) continuous_length (inputs.getD i ⟨0, 0, []⟩))
    blob
  let blob := if normalize then convertTo blob (1 / 255) else convertTo blob 1
  let blob := subtract blob mean
  divide blob std

/-- Per-channel normalisation as the spec words it (section 4.1, "Applies
`(value - mean[c]) / stdDev[c]` per channel" after scaling by `1/255`): the value the packing
contract assigns to flat offset `c * H * W + p` of the packed tensor of one image. -/
def expected_sample (input : GpuMat) (std mean : Array3) (swapBR : Bool) (c p : Nat) : ℚ :=
  let input := if swapBR then cvtColor_BGR2RGB input else input
  (((input.plane c).getD p 0 : Nat) / 255 - mean.get c) / std.get c

/-! ## `dnn::FeatureExtractor` -/

/-- The member of `dnn::FeatureExtractor` that `predict` reads:
`input_dim_ = (channels, height, width)`. -/
structure FeatureExtractor where
  input_dim_ : Nat × Nat × Nat

/-- Dimensions of a matrix produced by `cv::cuda::resize(src, dst, dsize, ..)`: `dst` has
`dsize.height` rows and `dsize.width` columns. -/
structure MatDims where
  rows : Int
  cols : Int
  deriving DecidableEq, Repr

/-- Dimensions of `dst` after `cv::cuda::resize(src, dst, dsize, 0, 0, cv::INTER_AREA)`. -/
def resize_dims (dsize : Size) : MatDims :=
  { rows := dsize.height, cols := dsize.width }

/-- Dimensions of the `resized` image that `FeatureExtractor::predict` (lines 222 and 235-236)
hands to `blob_from_gpumat`: the size argument is `cv::Size(input_dim_[1], input_dim_[2])`,
and the first argument of `cv::Size` is the width. -/
def FeatureExtractor.resized_dims (self : FeatureExtractor) : MatDims :=
  resize_dims (Size.mk self.input_dim_.2.1 self.input_dim_.2.2)

/-! ## Geometry of `dnn::Yolo::predict` -/

/-- The `scale` local of `Yolo::predict` (lines 96-97, batch overload line 127);
`in_cols = input_dim_[2]`, `in_rows = input_dim_[1]`. -/
def Yolo.scale (in_cols in_rows img_cols img_rows : Int) : ℚ :=
  min ((in_cols : ℚ) / img_cols) ((in_rows : ℚ) / img_rows)

/-- The `padding` local of `Yolo::predict` (lines 98-100; the batch overload computes the
same expression at lines 128-130): `std::round` is applied to the whole difference, the
result is halved, 0.1 is subtracted and the value is truncated by `static_cast<int>`. -/
def Yolo.padding (in_cols in_rows img_cols img_rows : Int) : Size :=
  let scale := Yolo.scale in_cols in_rows img_cols img_rows
  { width := static_cast_int ((round ((in_cols : ℚ) - img_cols * scale) : ℚ) / 2 - 1 / 10)
    height := static_cast_int ((round ((in_rows : ℚ) - img_rows * scale) : ℚ) / 2 - 1 / 10) }

/-- The `new_size` argument `Yolo::predict` passes to `letterbox` (lines 102-103). -/
def Yolo.new_size (in_cols in_rows img_cols img_rows : Int) : Size :=
  let scale := Yolo.scale in_cols in_rows img_cols img_rows
  { width := round (img_cols * scale)
    height := round (img_rows * scale) }

/-- The `target_size` argument `Yolo::predict` passes to `letterbox` (line 104). -/
def Yolo.target_size (in_cols in_rows : Int) : Size :=
  { width := in_cols, height := in_rows }

/-- Margins `letterbox` adds when called from `Yolo::predict`. -/
def Yolo.border (in_cols in_rows img_cols img_rows : Int) : Border :=
  letterbox_border (Yolo.new_size in_cols in_rows img_cols img_rows)
    (Yolo.target_size in_cols in_rows)

/-! ## Suppression -/

/-- Area of a rectangle. -/
def Rect.area (r : Rect) : Int := r.width * r.height

/-- Overlap of two rectangles; the zero rectangle when they do not overlap. -/
def Rect.inter (a b : Rect) : Rect :=
  let x1 := max a.x b.x
  let y1 := max a.y b.y
  let w := min (a.x + a.width) (b.x + b.width) - x1
  let h := min (a.y + a.height) (b.y + b.height) - y1
  if w ≤ 0 ∨ h ≤ 0 then ⟨0, 0, 0, 0⟩ else ⟨x1, y1, w, h⟩

/-- Modelled from the spec: the overlap measure used by `cv::dnn::NMSBoxes`, an OpenCV routine
whose body is not part of the repository.  Glossary: "area of intersection divided by area of
union". -/
def iou (a b : Rect) : ℚ :=
  ((a.inter b).area : ℚ) / ((a.area + b.area - (a.inter b).area : Int) : ℚ)

/-- Insert index `i` into a list of indices ordered by descending score, after every index
whose score is at least that of `i`. -/
def insertDesc (scores : List ℚ) (i : Nat) : List Nat → List Nat
  | [] => [i]
  | j :: js =>
    if scores.getD j 0 < scores.getD i 0 then i :: j :: js
    else j :: insertDesc scores i js

/-- Stable sort of indices by descending score: indices are inserted in their original
order, so equal scores keep it. -/
def sortDesc (scores : List ℚ) (idxs : List Nat) : List Nat :=
  idxs.foldl (fun acc i => insertDesc scores i acc) []

/-- Greedy selection: keep the head, drop every remaining index whose box overlaps the kept
one by more than `overlapThreshold`, continue with what is left. -/
def suppress (bboxes : List Rect) (overlapThreshold : ℚ) : List Nat → List Nat
  | [] => []
  | i :: rest =>
    i :: suppress bboxes overlapThreshold
      (rest.filter fun j =>
        !decide (iou (bboxes.getD i default) (bboxes.getD j default) > overlapThreshold))
termination_by l => l.length
decreasing_by
  simp_wf
  exact Nat.lt_succ_of_le (List.length_filter_le _ _)

/-- Modelled from the spec: `cv::dnn::NMSBoxes`, an OpenCV routine whose body is not part of
the repository.  Section 4.3: "sort by descending confidence (ties broken by original index,
stable), repeatedly select the highest-remaining-confidence candidate as a kept Detection,
and discard every remaining candidate whose intersection-over-union with the kept box exceeds
`overlapThreshold`"; empty input gives empty output.  The result lists the kept indices in
keep order.  The spec gives the confidence threshold no role inside suppression, and
`post_process` only passes boxes that already exceed it. -/
def NMSBoxes (bboxes : List Rect) (scores : List ℚ) (_score_threshold nms_threshold : ℚ) :
    List Nat :=
  suppress bboxes nms_threshold (sortDesc scores (List.range bboxes.length))

/-! ## `dnn::Yolo::post_process` -/

/-- The members of `dnn::Yolo` the code reads: `input_dim_ = (channels, height, width)` and
`output_dim_ = (output_dim_[0], output_dim_[1])`, both obtained from the engine. -/
structure Yolo where
  input_dim_ : Nat × Nat × Nat
  output_dim_ : Nat × Nat

/-- Body of the `if` inside the decode loop (lines 161-176): the rectangle built for
candidate `i`. -/
def Yolo.decode_rect (self : Yolo) (raw_results : Nat → ℚ) (scale : ℚ) (pad : Size)
    (img_cols img_rows : Nat) (i : Nat) : Rect :=
  let xc := raw_results i
  let yc := raw_results (1 * self.output_dim_.2 + i)
  let dw := raw_results (2 * self.output_dim_.2 + i) / 2
  let dh := raw_results (3 * self.output_dim_.2 + i) / 2
  let x1 := xc - dw
  let y1 := yc - dh
  let x2 := xc + dw
  let y2 := yc + dh
  let x1 := max ((x1 - pad.width) / scale) 0
  let y1 := max ((y1 - pad.height) / scale) 0
  let x2 := min ((x2 - pad.width) / scale) (img_cols : ℚ)
  let y2 := min ((y2 - pad.height) / scale) (img_rows : ℚ)
  Rect.ofPoints ⟨round x1, round y1⟩ ⟨round x2, round y2⟩

/-- The decode loop (lines 156-179): the vectors `rects` and `confs` after the loop. -/
def Yolo.decode (self : Yolo) (raw_results : Nat → ℚ) (confidence_threshold_ scale : ℚ)
    (pad : Size) (img_cols img_rows : Nat) : List Rect × List ℚ :=
  (List.range self.output_dim_.2).foldl
    (fun acc i =>
      if raw_results (4 * self.output_dim_.2 + i) > confidence_threshold_ then
        (acc.1 ++ [self.decode_rect raw_results scale pad img_cols img_rows i],
         acc.2 ++ [raw_results (4 * self.output_dim_.2 + i)])
      else acc)
    ([], [])

/-- Single-image `dnn::Yolo::post_process` (lines 148-189).  The thrown `std::runtime_error`
is the `Except.error` result. -/
def Yolo.post_process (self : Yolo) (raw_results : Nat → ℚ)
    (confidence_threshold_ nms_threshold_ scale : ℚ) (pad : Size) (img_cols img_rows : Nat) :
    Except String (List Object) :=
  if self.output_dim_.1 ≥ 6 then
    Except.error "xywhsc is not supported yet"
  else
    let d := self.decode raw_results confidence_threshold_ scale pad img_cols img_rows
    let rects := d.1
    let confs := d.2
    let idxes :=
      if !rects.isEmpty then NMSBoxes rects confs confidence_threshold_ nms_threshold_ else []
    Except.ok (idxes.map fun i => { rect := rects.getD i default, conf := confs.getD i 0 })

/-- Batch `dnn::Yolo::post_process` (lines 191-203): `results` starts as `batch_size` empty
vectors and slot `b` is overwritten with the single-image result for the sub-buffer at
`b * output_dim_[0] * output_dim_[1]`; an exception from any slot aborts the call. -/
def Yolo.post_process_batch (self : Yolo) (raw_results : Nat → ℚ) (batch_size : Nat)
    (_confidence_threshold_ _nms_threshold_ scale : ℚ) (pad : Size) (img_cols img_rows : Nat) :
    Except String (List (List Object)) :=
  (List.range batch_size).foldlM
    (fun results b => do
      let r ← self.post_process
        (fun k => raw_results (b * self.output_dim_.1 * self.output_dim_.2 + k))
        (1 / 4) (9 / 20) scale pad img_cols img_rows
      pure (results.set b r))
    (List.replicate batch_size [])

/-- Tail of single-image `Yolo::predict` (lines 94-114) once the engine has filled
`raw_output_`: the geometry is computed from the image and input sizes and handed to
`post_process`. -/
def Yolo.predict (self : Yolo) (img_cols img_rows : Nat) (raw_output_ : Nat → ℚ)
    (confidence_threshold nms_threshold : ℚ) : Except String (List Object) :=
  let in_cols : Int := self.input_dim_.2.2
  let in_rows : Int := self.input_dim_.2.1
  self.post_process raw_output_ confidence_threshold nms_threshold
    (Yolo.scale in_cols in_rows img_cols img_rows)
    (Yolo.padding in_cols in_rows img_cols img_rows) img_cols img_rows

/-! ## Concrete inputs -/

/-- A `float *` pointing at the first element of a finite buffer. -/
def buffer (l : List ℚ) : Nat → ℚ := fun i => l.getD i 0

/-- A detector with a 640x640 input and a single 5-attribute candidate. -/
def yolo640 : Yolo := { input_dim_ := (3, 640, 640), output_dim_ := (5, 1) }

/-- The 2x2 test image used for the packing evaluation, pixels in memory order. -/
def img22 : GpuMat :=
  ⟨2, 2, [⟨255, 0, 0⟩, ⟨255, 255, 0⟩, ⟨0, 255, 255⟩, ⟨0, 0, 255⟩]⟩

/-- Raw output for the round trip: the box (100,100)-(200,200) of a 1280x720 image mapped
into the 640x640 letterbox (scale 1/2, top border 140) is (50,190)-(100,240), i.e. centre
(75, 215) and size 50x50; confidence 0.75. -/
def raw_round_trip : Nat → ℚ := buffer [75, 215, 50, 50, 3 / 4]

/-- Raw output with one box inside the top padding band of the letterboxed image. -/
def raw_above : Nat → ℚ := buffer [320, 50, 100, 20, 3 / 4]

/-- Raw output with one box to the right of the letterboxed image. -/
def raw_right : Nat → ℚ := buffer [700, 300, 20, 20, 3 / 4]

/-- Raw output with two identical boxes of confidence 0.9 and 0.5. -/
def raw_pair : Nat → ℚ := buffer [100, 100, 100, 100, 40, 40, 40, 40, 9 / 10, 1 / 2]

/-- Raw output with three candidates whose confidences are the threshold 0.25, the threshold
plus 1e-6, and 0.125. -/
def raw_threshold : Nat → ℚ :=
  buffer [10, 20, 30, 10, 20, 30, 4, 4, 4, 4, 4, 4, 1 / 4, 1 / 4 + 1 / 1000000, 1 / 8]

/-! # Theorems -/

/-! ## Rounding lemmas -/

theorem round_eq_of_near (q : ℚ) (n : Int) (h1 : (n : ℚ) - 1 / 2 < q) (h2 : q < n + 1 / 2) :
    round q = n := by
  unfold round
  split
  · rw [Int.floor_eq_iff]
    constructor <;> linarith
  · have h : ⌊-q + 1 / 2⌋ = -n := by
      rw [Int.floor_eq_iff]
      push_cast
      constructor <;> linarith
    rw [h, neg_neg]

theorem roundTiesEven_intCast (n : Int) : roundTiesEven (n : ℚ) = n := by
  simp [roundTiesEven]

theorem roundTiesEven_near (x : ℚ) : |(roundTiesEven x : ℚ) - x| ≤ 1 / 2 := by
  have h1 : (⌊x⌋ : ℚ) ≤ x := Int.floor_le x
  have h2 : x < ⌊x⌋ + 1 := Int.lt_floor_add_one x
  unfold roundTiesEven
  rw [abs_le]
  split
  · constructor <;> linarith
  · split
    · push_cast
      constructor <;> linarith
    · have h3 : x - ⌊x⌋ = 1 / 2 := le_antisymm (not_lt.mp ‹_›) (not_lt.mp ‹_›)
      split
      · constructor <;> linarith
      · push_cast
        constructor <;> linarith

theorem roundToPrecision_near (p : Nat) (q : ℚ) :
    |roundToPrecision p q - q| ≤ |q| / 2 ^ p := by
  unfold roundToPrecision
  split
  · subst_vars; simp
  · rename_i hq
    have hq0 : 0 < |q| := abs_pos.mpr hq
    set e := Int.log 2 |q| with he
    have hu : (0 : ℚ) < 2 ^ (e - p + 1) := zpow_pos (by norm_num) _
    have hn := roundTiesEven_near (q / 2 ^ (e - p + 1))
    have hle : (2 : ℚ) ^ e ≤ |q| := by
      have := Int.zpow_log_le_self (b := 2) (by norm_num) hq0
      simpa using this
    have hu2 : (2 : ℚ) ^ (e - p + 1) = 2 ^ e / 2 ^ p * 2 := by
      rw [zpow_add₀ (by norm_num), zpow_sub₀ (by norm_num), zpow_natCast, zpow_one]
    have key : (roundTiesEven (q / 2 ^ (e - p + 1)) : ℚ) * 2 ^ (e - p + 1) - q
        = ((roundTiesEven (q / 2 ^ (e - p + 1)) : ℚ) - q / 2 ^ (e - p + 1)) * 2 ^ (e - p + 1) := by
      field_simp
    rw [key, abs_mul, abs_of_pos hu]
    have hp : (0 : ℚ) < 2 ^ p := pow_pos (by norm_num) _
    calc |(roundTiesEven (q / 2 ^ (e - p + 1)) : ℚ) - q / 2 ^ (e - p + 1)| * 2 ^ (e - p + 1)
        ≤ 1 / 2 * 2 ^ (e - p + 1) := mul_le_mul_of_nonneg_right hn hu.le
      _ = 2 ^ e / 2 ^ p := by rw [hu2]; ring
      _ ≤ |q| / 2 ^ p := div_le_div_of_nonneg_right hle hp.le

theorem roundToPrecision_of_int_mul (p : Nat) (q : ℚ) (N : Int)
    (hN : q = N * 2 ^ (Int.log 2 |q| - p + 1)) : roundToPrecision p q = q := by
  unfold roundToPrecision
  split
  · subst_vars; rfl
  · have hu : (2 : ℚ) ^ (Int.log 2 |q| - p + 1) ≠ 0 := zpow_ne_zero _ (by norm_num)
    have hdiv : q / 2 ^ (Int.log 2 |q| - p + 1) = N := by
      rw [div_eq_iff hu]; exact hN
    rw [hdiv, roundTiesEven_intCast]
    exact hN.symm

/-- Halves of naturals up to `2 ^ p` are representable with `p` significant bits. -/
theorem roundToPrecision_half (p : Nat) (hp : 1 ≤ p) (m : Nat) (hm : m ≤ 2 ^ p) :
    roundToPrecision p ((m : ℚ) / 2) = (m : ℚ) / 2 := by
  rcases Nat.eq_zero_or_pos m with h0 | hpos
  · subst h0; simp [roundToPrecision]
  have hq : (0 : ℚ) < (m : ℚ) / 2 := by positivity
  have habs : |(m : ℚ) / 2| = (m : ℚ) / 2 := abs_of_pos hq
  rcases Nat.lt_or_ge m (2 ^ p) with hlt | hge
  · -- exponent at most p - 2
    have hlt' : (m : ℚ) / 2 < (2 : ℚ) ^ ((p : ℤ) - 1) := by
      rw [zpow_sub₀ (by norm_num), zpow_natCast, zpow_one]
      have : (m : ℚ) < 2 ^ p := by exact_mod_cast hlt
      linarith
    have he : Int.log 2 ((m : ℚ) / 2) < (p : ℤ) - 1 := by
      have := (Int.lt_zpow_iff_log_lt (b := 2) (by norm_num) hq).mp (by simpa using hlt')
      exact this
    obtain ⟨j, hj⟩ : ∃ j : ℕ, (j : ℤ) = (p : ℤ) - 2 - Int.log 2 ((m : ℚ) / 2) :=
      ⟨((p : ℤ) - 2 - Int.log 2 ((m : ℚ) / 2)).toNat, Int.toNat_of_nonneg (by omega)⟩
    apply roundToPrecision_of_int_mul p _ ((m : ℤ) * 2 ^ j)
    rw [habs]
    have hexp : Int.log 2 ((m : ℚ) / 2) - (p : ℤ) + 1 = -((j : ℤ) + 1) := by omega
    rw [hexp, zpow_neg, zpow_add₀ (by norm_num), zpow_natCast, zpow_one]
    push_cast
    field_simp
    ring
  · -- m = 2 ^ p
    have hm2 : m = 2 ^ p := le_antisymm hm hge
    obtain ⟨k, rfl⟩ : ∃ k, p = k + 1 := ⟨p - 1, by omega⟩
    have hval : (m : ℚ) / 2 = (2 : ℚ) ^ (k : ℤ) := by
      rw [hm2, zpow_natCast]; push_cast; rw [pow_succ]; field_simp
    have he : Int.log 2 ((m : ℚ) / 2) = k := by
      rw [hval]
      have := Int.log_zpow (R := ℚ) (b := 2) (by norm_num) (k : ℤ)
      simpa using this
    apply roundToPrecision_of_int_mul (k + 1) _ ((2 : ℤ) ^ k)
    rw [habs, he]
    have hexp : (k : ℤ) - ((k + 1 : ℕ) : ℤ) + 1 = 0 := by push_cast; ring
    rw [hexp, zpow_zero, hval, zpow_natCast]
    push_cast
    ring


theorem log_two_eq (q : ℚ) (e : Int) (h1 : (2 : ℚ) ^ e ≤ |q|) (h2 : |q| < 2 ^ (e + 1)) :
    Int.log 2 |q| = e := by
  have hpos : (0 : ℚ) < |q| := lt_of_lt_of_le (zpow_pos (by norm_num) e) h1
  have ha : e ≤ Int.log 2 |q| :=
    (Int.zpow_le_iff_le_log (b := 2) (by norm_num) hpos).mp (by simpa using h1)
  have hb : Int.log 2 |q| < e + 1 :=
    (Int.lt_zpow_iff_log_lt (b := 2) (by norm_num) hpos).mp (by simpa using h2)
  omega

theorem roundToPrecision_eval (p : Nat) (q : ℚ) (e n : Int) (h1 : (2 : ℚ) ^ e ≤ |q|)
    (h2 : |q| < 2 ^ (e + 1)) (hn : roundTiesEven (q / 2 ^ (e - p + 1)) = n) :
    roundToPrecision p q = n * 2 ^ (e - p + 1) := by
  have hpos : (0 : ℚ) < |q| := lt_of_lt_of_le (zpow_pos (by norm_num) e) h1
  unfold roundToPrecision
  rw [if_neg (abs_pos.mp hpos), log_two_eq q e h1 h2, hn]

theorem double_tenth_near : |to_double (1 / 10) - 1 / 10| ≤ 1 / 10 / 2 ^ 53 := by
  have h := roundToPrecision_near 53 (1 / 10)
  rwa [abs_of_pos (by norm_num : (0 : ℚ) < 1 / 10)] at h

theorem round_double_sub (x : ℚ) (n : Int) (hx : |x| ≤ 2 ^ 24)
    (h1 : (n : ℚ) - 2 / 5 ≤ x - 1 / 10) (h2 : x - 1 / 10 ≤ n + 2 / 5) :
    round (to_double (x - to_double (1 / 10))) = n := by
  have hc := abs_le.mp double_tenth_near
  have hx' := abs_le.mp hx
  have hz : |x - to_double (1 / 10)| ≤ 2 ^ 24 + 1 := by
    rw [abs_le]; constructor <;> norm_num at hc ⊢ <;> linarith [hc.1, hc.2, hx'.1, hx'.2]
  have hy := roundToPrecision_near 53 (x - to_double (1 / 10))
  have hy' : |to_double (x - to_double (1 / 10)) - (x - to_double (1 / 10))|
      ≤ (2 ^ 24 + 1) / 2 ^ 53 :=
    le_trans hy (div_le_div_of_nonneg_right hz (by positivity))
  have hy2 := abs_le.mp hy'
  apply round_eq_of_near
  · norm_num at hc hy2 ⊢; linarith [hc.1, hc.2, hy2.1, hy2.2]
  · norm_num at hc hy2 ⊢; linarith [hc.1, hc.2, hy2.1, hy2.2]

theorem round_double_add (x : ℚ) (n : Int) (hx : |x| ≤ 2 ^ 24)
    (h1 : (n : ℚ) - 2 / 5 ≤ x + 1 / 10) (h2 : x + 1 / 10 ≤ n + 2 / 5) :
    round (to_double (x + to_double (1 / 10))) = n := by
  have hc := abs_le.mp double_tenth_near
  have hx' := abs_le.mp hx
  have hz : |x + to_double (1 / 10)| ≤ 2 ^ 24 + 1 := by
    rw [abs_le]; constructor <;> norm_num at hc ⊢ <;> linarith [hc.1, hc.2, hx'.1, hx'.2]
  have hy := roundToPrecision_near 53 (x + to_double (1 / 10))
  have hy' : |to_double (x + to_double (1 / 10)) - (x + to_double (1 / 10))|
      ≤ (2 ^ 24 + 1) / 2 ^ 53 :=
    le_trans hy (div_le_div_of_nonneg_right hz (by positivity))
  have hy2 := abs_le.mp hy'
  apply round_eq_of_near
  · norm_num at hc hy2 ⊢; linarith [hc.1, hc.2, hy2.1, hy2.2]
  · norm_num at hc hy2 ⊢; linarith [hc.1, hc.2, hy2.1, hy2.2]

theorem wrap_int_of_small (d : Int) (h0 : 0 ≤ d) (h1 : d ≤ 2 ^ 24) : wrap_int d = d := by
  unfold wrap_int
  norm_num at h1 ⊢
  omega

/-- The stored `float` half-difference is exact for differences from 0 to `2 ^ 24`. -/
theorem pad_exact (d : Int) (h0 : 0 ≤ d) (h1 : d ≤ 2 ^ 24) :
    to_float (to_double ((wrap_int d : ℚ) / 2)) = (d : ℚ) / 2 := by
  rw [wrap_int_of_small d h0 h1]
  obtain ⟨m, rfl⟩ := Int.eq_ofNat_of_zero_le h0
  have hm : m ≤ 2 ^ 24 := by exact_mod_cast h1
  have e1 : to_double (((m : ℤ) : ℚ) / 2) = (m : ℚ) / 2 := by
    unfold to_double
    rw [Int.cast_natCast]
    exact roundToPrecision_half 53 (by norm_num) m (le_trans hm (by norm_num))
  rw [e1]
  unfold to_float
  rw [Int.cast_natCast]
  exact roundToPrecision_half 24 (by norm_num) m hm

theorem margins_of_small (d : Int) (h0 : 0 ≤ d) (h1 : d ≤ 2 ^ 24) :
    round (to_double (to_float (to_double ((wrap_int d : ℚ) / 2)) - to_double (1 / 10)))
      = d / 2 ∧
    round (to_double (to_float (to_double ((wrap_int d : ℚ) / 2)) + to_double (1 / 10)))
      = (d + 1) / 2 := by
  rw [pad_exact d h0 h1]
  have hd : ((d : ℚ)) ≤ 2 ^ 24 := by exact_mod_cast h1
  have hd0 : (0 : ℚ) ≤ d := by exact_mod_cast h0
  have hx : |(d : ℚ) / 2| ≤ 2 ^ 24 := by
    rw [abs_le]; constructor <;> linarith
  constructor
  · apply round_double_sub _ _ hx
    · rcases Int.emod_two_eq_zero_or_one d with h | h
      · have hq : (d : ℚ) = 2 * ((d / 2 : Int) : ℚ) := by
          exact_mod_cast (by omega : d = 2 * (d / 2))
        linarith
      · have hq : (d : ℚ) = 2 * ((d / 2 : Int) : ℚ) + 1 := by
          exact_mod_cast (by omega : d = 2 * (d / 2) + 1)
        linarith
    · rcases Int.emod_two_eq_zero_or_one d with h | h
      · have hq : (d : ℚ) = 2 * ((d / 2 : Int) : ℚ) := by
          exact_mod_cast (by omega : d = 2 * (d / 2))
        linarith
      · have hq : (d : ℚ) = 2 * ((d / 2 : Int) : ℚ) + 1 := by
          exact_mod_cast (by omega : d = 2 * (d / 2) + 1)
        linarith
  · apply round_double_add _ _ hx
    · rcases Int.emod_two_eq_zero_or_one d with h | h
      · have hq : (d : ℚ) = 2 * (((d + 1) / 2 : Int) : ℚ) := by
          exact_mod_cast (by omega : d = 2 * ((d + 1) / 2))
        linarith
      · have hq : (d : ℚ) = 2 * (((d + 1) / 2 : Int) : ℚ) - 1 := by
          exact_mod_cast (by omega : d = 2 * ((d + 1) / 2) - 1)
        linarith
    · rcases Int.emod_two_eq_zero_or_one d with h | h
      · have hq : (d : ℚ) = 2 * (((d + 1) / 2 : Int) : ℚ) := by
          exact_mod_cast (by omega : d = 2 * ((d + 1) / 2))
        linarith
      · have hq : (d : ℚ) = 2 * (((d + 1) / 2 : Int) : ℚ) - 1 := by
          exact_mod_cast (by omega : d = 2 * ((d + 1) / 2) - 1)
        linarith

theorem letterbox_border_of_small (new_size target_size : Size)
    (hw : new_size.width ≤ target_size.width) (hh : new_size.height ≤ target_size.height)
    (hwb : target_size.width - new_size.width ≤ 2 ^ 24)
    (hhb : target_size.height - new_size.height ≤ 2 ^ 24) :
    letterbox_border new_size target_size =
      { top := (target_size.height - new_size.height) / 2
        bottom := (target_size.height - new_size.height + 1) / 2
        left := (target_size.width - new_size.width) / 2
        right := (target_size.width - new_size.width + 1) / 2 } := by
  have h1 := margins_of_small (target_size.height - new_size.height) (by omega) hhb
  have h2 := margins_of_small (target_size.width - new_size.width) (by omega) hwb
  simp only [letterbox_border, h1.1, h1.2, h2.1, h2.2]

/-- The stored `float` of 8388608.5 is 8388608: the tie goes to the even significand. -/
theorem to_float_tie : to_float ((16777217 : ℚ) / 2) = 8388608 := by
  unfold to_float
  rw [roundToPrecision_eval 24 _ 23 8388608 (by norm_num [abs_of_pos])
    (by norm_num [abs_of_pos]) (by norm_num [roundTiesEven])]
  norm_num

theorem letterbox_border_wide :
    letterbox_border ⟨1, 1⟩ ⟨16777218, 1⟩ = ⟨0, 0, 8388608, 8388608⟩ := by
  have hd : to_double ((16777217 : ℚ) / 2) = 16777217 / 2 := by
    have := roundToPrecision_half 53 (by norm_num) 16777217 (by norm_num)
    simpa [to_double] using this
  have hw : wrap_int (16777218 - 1) = 16777217 := by decide
  have hpad : to_float (to_double ((wrap_int (16777218 - 1) : ℚ) / 2)) = 8388608 := by
    rw [hw]; push_cast; rw [hd, to_float_tie]
  have h0 := margins_of_small (1 - 1) (by decide) (by norm_num)
  have hl : round (to_double ((8388608 : ℚ) - to_double (1 / 10))) = 8388608 :=
    round_double_sub _ _ (by norm_num [abs_of_pos]) (by norm_num) (by norm_num)
  have hr : round (to_double ((8388608 : ℚ) + to_double (1 / 10))) = 8388608 :=
    round_double_add _ _ (by norm_num [abs_of_pos]) (by norm_num) (by norm_num)
  simp only [letterbox_border, hpad, hl, hr, h0.1, h0.2]
  decide

/-! ## Letterbox geometry -/

/-- C5 (as amended): whenever the resized image fits inside the target and the size
difference on each axis is at most `2 ^ 24 = 16777216`, the four margins computed by
`letterbox` are non-negative, fill the target exactly on both axes (so the padded image has
the target size), and the two margins of an axis differ by at most one with the smaller one
first. -/
theorem letterbox_border_fills_target (new_size target_size : Size)
    (hw : new_size.width ≤ target_size.width) (hh : new_size.height ≤ target_size.height)
    (hwb : target_size.width - new_size.width ≤ 2 ^ 24)
    (hhb : target_size.height - new_size.height ≤ 2 ^ 24) :
    0 ≤ (letterbox_border new_size target_size).top ∧
    0 ≤ (letterbox_border new_size target_size).bottom ∧
    0 ≤ (letterbox_border new_size target_size).left ∧
    0 ≤ (letterbox_border new_size target_size).right ∧
    new_size.height + (letterbox_border new_size target_size).top
      + (letterbox_border new_size target_size).bottom = target_size.height ∧
    new_size.width + (letterbox_border new_size target_size).left
      + (letterbox_border new_size target_size).right = target_size.width ∧
    (letterbox_border new_size target_size).top ≤ (letterbox_border new_size target_size).bottom ∧
    (letterbox_border new_size target_size).bottom
      ≤ (letterbox_border new_size target_size).top + 1 ∧
    (letterbox_border new_size target_size).left ≤ (letterbox_border new_size target_size).right ∧
    (letterbox_border new_size target_size).right
      ≤ (letterbox_border new_size target_size).left + 1 ∧
    letterbox new_size target_size = target_size := by
  have e := letterbox_border_of_small new_size target_size hw hh hwb hhb
  obtain ⟨tw, th⟩ := target_size
  obtain ⟨nw, nh⟩ := new_size
  simp only [letterbox, e, Size.mk.injEq] at *
  omega

/-- Witness for C5: a 640x359 resized image inside a 640x640 target, so the width
difference is even (0) and the height difference is odd (281). -/
theorem letterbox_border_fills_target_witness :
    (640 : Int) ≤ 640 ∧ (359 : Int) ≤ 640 ∧
    (640 : Int) - 640 ≤ 2 ^ 24 ∧ (640 : Int) - 359 ≤ 2 ^ 24 ∧
    letterbox_border ⟨640, 359⟩ ⟨640, 640⟩ = ⟨140, 141, 0, 0⟩ ∧
    letterbox ⟨640, 359⟩ ⟨640, 640⟩ = ⟨640, 640⟩ := by
  have h := letterbox_border_fills_target ⟨640, 359⟩ ⟨640, 640⟩ (by decide) (by decide)
    (by decide) (by decide)
  refine ⟨by decide, by decide, by decide, by decide, ?_, h.2.2.2.2.2.2.2.2.2.2⟩
  obtain ⟨h1, h2, h3, h4, h5, h6, h7, h8, h9, h10, _⟩ := h
  generalize letterbox_border ⟨640, 359⟩ ⟨640, 640⟩ = b at *
  obtain ⟨bt, bb, bl, br⟩ := b
  simp only [Border.mk.injEq] at *
  omega

/-- Counterexample for C5 as first stated: a 1x1 resized image inside a 16777218x1 target
fits, the width difference 16777217 is odd, its half 8388608.5 does not fit the `float`
`padw` and is stored as 8388608, so both side margins are 8388608 and the padded width is
16777217, one short of the target. -/
theorem letterbox_border_misses_wide_target :
    (1 : Int) ≤ 16777218 ∧ (1 : Int) ≤ 1 ∧
    letterbox_border ⟨1, 1⟩ ⟨16777218, 1⟩ = ⟨0, 0, 8388608, 8388608⟩ ∧
    1 + (letterbox_border ⟨1, 1⟩ ⟨16777218, 1⟩).left
      + (letterbox_border ⟨1, 1⟩ ⟨16777218, 1⟩).right ≠ 16777218 ∧
    letterbox ⟨1, 1⟩ ⟨16777218, 1⟩ ≠ ⟨16777218, 1⟩ := by
  refine ⟨by decide, by decide, letterbox_border_wide, ?_, ?_⟩
  · rw [letterbox_border_wide]
    decide
  · unfold letterbox
    rw [letterbox_border_wide]
    decide

theorem scale_640_1280_720 : Yolo.scale 640 640 1280 720 = 1 / 2 := by
  norm_num [Yolo.scale]

theorem padding_640_1280_720 : Yolo.padding 640 640 1280 720 = ⟨0, 139⟩ := by
  norm_num [Yolo.padding, Yolo.scale, dnn.round, static_cast_int]

theorem new_size_640_1280_720 : Yolo.new_size 640 640 1280 720 = ⟨640, 360⟩ := by
  norm_num [Yolo.new_size, Yolo.scale, dnn.round]

theorem border_640_1280_720 : Yolo.border 640 640 1280 720 = ⟨140, 140, 0, 0⟩ := by
  unfold Yolo.border
  rw [new_size_640_1280_720, Yolo.target_size,
    letterbox_border_of_small _ _ (by decide) (by decide) (by decide) (by decide)]
  decide

/-- C1: for a 1280x720 image and a 640x640 model input, `Yolo::predict` hands
`post_process` the padding (0, 139) while `letterbox` adds a left border of 0 and a top
border of 140: the height padding used to invert the transform is one less than the border
actually added. -/
theorem predict_padding_vs_letterbox_border :
    Yolo.padding 640 640 1280 720 = ⟨0, 139⟩ ∧
    Yolo.border 640 640 1280 720 = ⟨140, 140, 0, 0⟩ ∧
    (Yolo.padding 640 640 1280 720).height ≠ (Yolo.border 640 640 1280 720).top := by
  refine ⟨padding_640_1280_720, border_640_1280_720, ?_⟩
  rw [padding_640_1280_720, border_640_1280_720]
  decide

/-! ## Decode loop -/

theorem foldl_push_eq_filter_map {α β γ : Type} (p : α → Prop) [DecidablePred p]
    (g : α → β) (h : α → γ) (l : List α) (a : List β) (b : List γ) :
    l.foldl (fun acc i => if p i then (acc.1 ++ [g i], acc.2 ++ [h i]) else acc) (a, b)
      = (a ++ (l.filter fun i => decide (p i)).map g,
         b ++ (l.filter fun i => decide (p i)).map h) := by
  induction l generalizing a b with
  | nil => simp
  | cons x xs ih =>
    simp only [List.foldl_cons]
    by_cases hx : p x
    · simp [hx, ih]
    · simp [hx, ih]

/-- Indices the decode loop keeps: those whose confidence entry exceeds the threshold. -/
theorem decode_eq_filter_map (self : Yolo) (raw_results : Nat → ℚ)
    (confidence_threshold_ scale : ℚ) (pad : Size) (img_cols img_rows : Nat) :
    self.decode raw_results confidence_threshold_ scale pad img_cols img_rows
      = (((List.range self.output_dim_.2).filter fun i =>
            decide (raw_results (4 * self.output_dim_.2 + i) > confidence_threshold_)).map
            (self.decode_rect raw_results scale pad img_cols img_rows),
         ((List.range self.output_dim_.2).filter fun i =>
            decide (raw_results (4 * self.output_dim_.2 + i) > confidence_threshold_)).map
            fun i => raw_results (4 * self.output_dim_.2 + i)) := by
  unfold Yolo.decode
  rw [foldl_push_eq_filter_map]
  simp

/-! ## Suppression keeps a subset -/

theorem mem_insertDesc (scores : List ℚ) (i x : Nat) (l : List Nat) :
    x ∈ insertDesc scores i l ↔ x = i ∨ x ∈ l := by
  induction l with
  | nil => simp [insertDesc]
  | cons j js ih =>
    unfold insertDesc
    split
    · simp
    · simp only [List.mem_cons, ih]
      tauto

theorem mem_foldl_insertDesc (scores : List ℚ) (x : Nat) (l acc : List Nat) :
    x ∈ l.foldl (fun acc i => insertDesc scores i acc) acc ↔ x ∈ l ∨ x ∈ acc := by
  induction l generalizing acc with
  | nil => simp
  | cons j js ih =>
    simp only [List.foldl_cons, ih, mem_insertDesc, List.mem_cons]
    tauto

theorem mem_sortDesc (scores : List ℚ) (x : Nat) (l : List Nat) :
    x ∈ sortDesc scores l ↔ x ∈ l := by
  simp [sortDesc, mem_foldl_insertDesc]

theorem mem_of_mem_suppress (bboxes : List Rect) (thr : ℚ) (x : Nat) :
    ∀ (n : Nat) (l : List Nat), l.length ≤ n → x ∈ suppress bboxes thr l → x ∈ l := by
  intro n
  induction n with
  | zero =>
    intro l hl hx
    have : l = [] := List.length_eq_zero.mp (Nat.le_zero.mp hl)
    subst this
    simp [suppress] at hx
  | succ n ih =>
    intro l hl hx
    cases l with
    | nil => simp [suppress] at hx
    | cons i rest =>
      rw [suppress] at hx
      rcases List.mem_cons.mp hx with h | h
      · exact h ▸ List.mem_cons_self _ _
      · have hlen : (rest.filter fun j =>
            !decide (iou (bboxes.getD i default) (bboxes.getD j default) > thr)).length ≤ n :=
          le_trans (List.length_filter_le _ _) (Nat.le_of_succ_le_succ hl)
        exact List.mem_cons_of_mem _ (List.mem_of_mem_filter (ih _ hlen h))

theorem mem_NMSBoxes_lt (bboxes : List Rect) (scores : List ℚ) (t n : ℚ) (x : Nat)
    (hx : x ∈ NMSBoxes bboxes scores t n) : x < bboxes.length := by
  unfold NMSBoxes at hx
  have h := mem_of_mem_suppress bboxes n x _ _ (le_refl _) hx
  rw [mem_sortDesc] at h
  exact List.mem_range.mp h


/-! ## Decode: threshold and format -/

/-- C6: with attribute dimension 5 the decode loop of `post_process` builds its candidate
lists from exactly the indices `i < N` whose confidence `raw[4*N + i]` is strictly greater
than the threshold, in increasing index order, each carrying that confidence; an index whose
confidence equals the threshold is not among them, one whose confidence is the threshold plus
`1e-6` is, and every detection `post_process` returns is one of these candidates, so its
confidence is strictly above the threshold. -/
theorem decode_keeps_exactly_above_threshold (idim : Nat × Nat × Nat) (N : Nat)
    (raw : Nat → ℚ) (t nms scale : ℚ) (pad : Size) (img_cols img_rows : Nat) :
    (Yolo.mk idim (5, N)).decode raw t scale pad img_cols img_rows
      = (((List.range N).filter fun i => decide (raw (4 * N + i) > t)).map
            ((Yolo.mk idim (5, N)).decode_rect raw scale pad img_cols img_rows),
         ((List.range N).filter fun i => decide (raw (4 * N + i) > t)).map
            fun i => raw (4 * N + i)) ∧
    ((List.range N).filter fun i => decide (raw (4 * N + i) > t)).Pairwise (· < ·) ∧
    (∀ i, i ∈ ((List.range N).filter fun i => decide (raw (4 * N + i) > t))
        ↔ i < N ∧ raw (4 * N + i) > t) ∧
    (∀ i, raw (4 * N + i) = t →
        i ∉ ((List.range N).filter fun i => decide (raw (4 * N + i) > t))) ∧
    (∀ i, i < N → raw (4 * N + i) = t + 1 / 1000000 →
        i ∈ ((List.range N).filter fun i => decide (raw (4 * N + i) > t))) ∧
    ∃ objs, (Yolo.mk idim (5, N)).post_process raw t nms scale pad img_cols img_rows
        = Except.ok objs ∧
      ∀ o ∈ objs, t < o.conf ∧
        ∃ i, i < N ∧ t < raw (4 * N + i) ∧
          o = ⟨(Yolo.mk idim (5, N)).decode_rect raw scale pad img_cols img_rows i,
               raw (4 * N + i)⟩ := by
  have hmem : ∀ i, i ∈ ((List.range N).filter fun i => decide (raw (4 * N + i) > t))
      ↔ i < N ∧ raw (4 * N + i) > t := by
    intro i
    simp [List.mem_filter]
  refine ⟨decode_eq_filter_map _ _ _ _ _ _ _, ?_, hmem, ?_, ?_, ?_⟩
  · exact List.Pairwise.filter _ (List.pairwise_lt_range N)
  · intro i hi hin
    have := ((hmem i).mp hin).2
    rw [hi] at this
    exact lt_irrefl _ this
  · intro i hi hc
    refine (hmem i).mpr ⟨hi, ?_⟩
    rw [hc]
    linarith
  · unfold Yolo.post_process
    rw [decode_eq_filter_map]
    rw [if_neg (show ¬ ((Yolo.mk idim (5, N)).output_dim_.1 ≥ 6) from by simp)]
    refine ⟨_, rfl, ?_⟩
    intro o ho
    obtain ⟨k, hk, rfl⟩ := List.mem_map.mp ho
    have hklt : k < (((List.range N).filter fun i => decide (raw (4 * N + i) > t)).map
        ((Yolo.mk idim (5, N)).decode_rect raw scale pad img_cols img_rows)).length := by
      split at hk
      · exact mem_NMSBoxes_lt _ _ _ _ _ hk
      · simp at hk
    rw [List.length_map] at hklt
    have hget := List.getElem_mem hklt
    obtain ⟨hiN, hit⟩ := (hmem _).mp hget
    have h1 : (((List.range N).filter fun i => decide (raw (4 * N + i) > t)).map
        ((Yolo.mk idim (5, N)).decode_rect raw scale pad img_cols img_rows)).getD k default
        = (Yolo.mk idim (5, N)).decode_rect raw scale pad img_cols img_rows
            (((List.range N).filter fun i => decide (raw (4 * N + i) > t))[k]) := by
      rw [List.getD_eq_getElem _ _ (by rw [List.length_map]; exact hklt), List.getElem_map]
    have h2 : (((List.range N).filter fun i => decide (raw (4 * N + i) > t)).map
        fun i => raw (4 * N + i)).getD k 0
        = raw (4 * N + ((List.range N).filter fun i => decide (raw (4 * N + i) > t))[k]) := by
      rw [List.getD_eq_getElem _ _ (by rw [List.length_map]; exact hklt), List.getElem_map]
    dsimp only
    rw [h1, h2]
    exact ⟨hit, _, hiN, hit, rfl⟩

/-- C7: single-image `post_process` fails with the unsupported-format error exactly when
`output_dim_[0] >= 6`; with attribute dimension 6 it fails for every candidate count, buffer
and thresholds, and with attribute dimension 5 it returns a list of detections. -/
theorem post_process_unsupported_iff (idim : Nat × Nat × Nat) (d0 N : Nat)
    (raw : Nat → ℚ) (t nms scale : ℚ) (pad : Size) (img_cols img_rows : Nat) :
    ((Yolo.mk idim (d0, N)).post_process raw t nms scale pad img_cols img_rows
        = Except.error "xywhsc is not supported yet" ↔ 6 ≤ d0) ∧
    ((∃ objs, (Yolo.mk idim (d0, N)).post_process raw t nms scale pad img_cols img_rows
        = Except.ok objs) ↔ d0 < 6) ∧
    (Yolo.mk idim (6, N)).post_process raw t nms scale pad img_cols img_rows
        = Except.error "xywhsc is not supported yet" ∧
    ∃ objs, (Yolo.mk idim (5, N)).post_process raw t nms scale pad img_cols img_rows
        = Except.ok objs := by
  refine ⟨?_, ?_, ?_, ?_⟩
  · unfold Yolo.post_process
    by_cases h : 6 ≤ d0
    · simp [h]
    · simp [h]
  · unfold Yolo.post_process
    by_cases h : 6 ≤ d0
    · simp [h]
    · simp [h]
      omega
  · simp [Yolo.post_process]
  · simp [Yolo.post_process]


/-! ## Suppression of a pair -/

theorem inter_comm (a b : Rect) : a.inter b = b.inter a := by
  unfold Rect.inter
  simp only [max_comm a.x b.x, max_comm a.y b.y, min_comm (a.x + a.width) (b.x + b.width),
    min_comm (a.y + a.height) (b.y + b.height)]

theorem iou_comm (a b : Rect) : iou a b = iou b a := by
  unfold iou
  rw [inter_comm a b, add_comm a.area b.area]

theorem NMSBoxes_pair (r0 r1 : Rect) (c0 c1 t nms : ℚ) (hiou : iou r0 r1 > nms) :
    NMSBoxes [r0, r1] [c0, c1] t nms = if c0 < c1 then [1] else [0] := by
  have hr : List.range 2 = [0, 1] := rfl
  have hiou2 : iou r1 r0 > nms := by rw [iou_comm]; exact hiou
  unfold NMSBoxes sortDesc
  simp only [List.length_cons, List.length_nil, hr, List.foldl_cons, List.foldl_nil, insertDesc]
  by_cases h : c0 < c1
  · simp [h, suppress, hiou2]
  · simp [h, suppress, hiou]

theorem NMSBoxes_single (r : Rect) (c t nms : ℚ) : NMSBoxes [r] [c] t nms = [0] := by
  have hr : List.range 1 = [0] := rfl
  unfold NMSBoxes sortDesc
  simp [hr, insertDesc, suppress]

/-- C8: when exactly two candidates `i < j` pass the confidence threshold, their
confidences differ and their decoded rectangles overlap by more than the overlap threshold,
`post_process` returns exactly one detection: the rectangle and confidence of the candidate
with the higher confidence. -/
theorem post_process_keeps_stronger_of_overlapping_pair (idim : Nat × Nat × Nat)
    (N i j : Nat) (raw : Nat → ℚ) (t nms scale : ℚ) (pad : Size) (img_cols img_rows : Nat)
    (hkept : ((List.range N).filter fun k => decide (raw (4 * N + k) > t)) = [i, j])
    (hne : raw (4 * N + i) ≠ raw (4 * N + j))
    (hiou : iou ((Yolo.mk idim (5, N)).decode_rect raw scale pad img_cols img_rows i)
        ((Yolo.mk idim (5, N)).decode_rect raw scale pad img_cols img_rows j) > nms) :
    (Yolo.mk idim (5, N)).post_process raw t nms scale pad img_cols img_rows
      = Except.ok
          [if raw (4 * N + j) < raw (4 * N + i) then
             ⟨(Yolo.mk idim (5, N)).decode_rect raw scale pad img_cols img_rows i,
              raw (4 * N + i)⟩
           else
             ⟨(Yolo.mk idim (5, N)).decode_rect raw scale pad img_cols img_rows j,
              raw (4 * N + j)⟩] := by
  unfold Yolo.post_process
  rw [decode_eq_filter_map]
  rw [if_neg (show ¬ ((Yolo.mk idim (5, N)).output_dim_.1 ≥ 6) from by simp)]
  simp only [hkept, List.map_cons, List.map_nil]
  rw [NMSBoxes_pair _ _ _ _ _ _ hiou]
  by_cases h : raw (4 * N + i) < raw (4 * N + j)
  · have h' : ¬ raw (4 * N + j) < raw (4 * N + i) := not_lt.mpr (le_of_lt h)
    simp [h, h']
  · have h' : raw (4 * N + j) < raw (4 * N + i) :=
      lt_of_le_of_ne (not_lt.mp h) (Ne.symm hne)
    simp [h, h']

/-! ## Batch post-processing -/

theorem foldlM_set_ok (h : Nat → List Object) (B : Nat) :
    ∀ n, n ≤ B →
      (List.range n).foldlM
        (fun (results : List (List Object)) b =>
          (Except.ok (h b) : Except String (List Object)) >>= fun r =>
            pure (results.set b r))
        (List.replicate B [])
      = Except.ok ((List.range n).map h ++ List.replicate (B - n) []) := by
  intro n
  induction n with
  | zero => intro _; simp; rfl
  | succ n ih =>
    intro hn
    rw [List.range_succ, List.foldlM_append, ih (Nat.le_of_succ_le hn)]
    have hrep : List.replicate (B - n) ([] : List Object)
        = [] :: List.replicate (B - (n + 1)) [] := by
      have : B - n = (B - (n + 1)) + 1 := by omega
      rw [this, List.replicate_succ]
    simp only [List.foldlM_cons, List.foldlM_nil, List.map_append, List.map_cons, List.map_nil]
    show Except.ok _ = _
    congr 1
    rw [hrep, List.set_append_right _ _ (by simp)]
    simp

theorem foldlM_set_error (e : String) (B : Nat) (init : List (List Object)) (hB : 0 < B) :
    (List.range B).foldlM
        (fun (results : List (List Object)) b =>
          (Except.error e : Except String (List Object)) >>= fun r =>
            pure (results.set b r))
        init
      = Except.error e := by
  obtain ⟨m, rfl⟩ : ∃ m, B = m + 1 := ⟨B - 1, by omega⟩
  rw [List.range_succ_eq_map]
  simp only [List.foldlM_cons]
  rfl


theorem mapM_ok (h : Nat → List Object) (l : List Nat) :
    l.mapM (fun b => (Except.ok (h b) : Except String (List Object))) = Except.ok (l.map h) := by
  induction l with
  | nil => rfl
  | cons x xs ih =>
    rw [List.mapM_cons, ih]
    rfl

theorem mapM_error (e : String) (x : Nat) (xs : List Nat) :
    (x :: xs).mapM (fun _ => (Except.error e : Except String (List Object)))
      = Except.error e := by
  rw [List.mapM_cons]
  rfl

theorem post_process_error_of_ge (self : Yolo) (h6 : 6 ≤ self.output_dim_.1) (raw : Nat → ℚ)
    (t nms scale : ℚ) (pad : Size) (img_cols img_rows : Nat) :
    self.post_process raw t nms scale pad img_cols img_rows
      = Except.error "xywhsc is not supported yet" := by
  unfold Yolo.post_process
  rw [if_pos h6]

theorem post_process_ok_of_lt (self : Yolo) (h6 : self.output_dim_.1 < 6) (raw : Nat → ℚ)
    (t nms scale : ℚ) (pad : Size) (img_cols img_rows : Nat) :
    ∃ objs, self.post_process raw t nms scale pad img_cols img_rows = Except.ok objs := by
  unfold Yolo.post_process
  rw [if_neg (not_le.mpr h6)]
  exact ⟨_, rfl⟩

/-- C9: the batch `post_process` does not depend on the thresholds the caller passes: it
runs the single-image `post_process` on the sub-buffer at offset
`b * output_dim_[0] * output_dim_[1]` with confidence threshold 0.25 and overlap threshold
0.45 for `b = 0, .., batch_size - 1` in turn, failing where the first of them fails, and
otherwise returns the `batch_size` results in order. -/
theorem post_process_batch_ignores_caller_thresholds (self : Yolo) (raw : Nat → ℚ)
    (batch_size : Nat) (c1 n1 c2 n2 scale : ℚ) (pad : Size) (img_cols img_rows : Nat) :
    self.post_process_batch raw batch_size c1 n1 scale pad img_cols img_rows
      = self.post_process_batch raw batch_size c2 n2 scale pad img_cols img_rows ∧
    self.post_process_batch raw batch_size c1 n1 scale pad img_cols img_rows
      = (List.range batch_size).mapM (fun b =>
          self.post_process (fun k => raw (b * self.output_dim_.1 * self.output_dim_.2 + k))
            (1 / 4) (9 / 20) scale pad img_cols img_rows) ∧
    (∀ res, self.post_process_batch raw batch_size c1 n1 scale pad img_cols img_rows
        = Except.ok res →
      res.length = batch_size ∧
      ∀ b, b < batch_size →
        self.post_process (fun k => raw (b * self.output_dim_.1 * self.output_dim_.2 + k))
            (1 / 4) (9 / 20) scale pad img_cols img_rows
          = Except.ok (res.getD b [])) ∧
    (self.output_dim_.1 < 6 →
      ∃ res, self.post_process_batch raw batch_size c1 n1 scale pad img_cols img_rows
        = Except.ok res) := by
  by_cases h6 : 6 ≤ self.output_dim_.1
  · -- every slot fails
    have herr := post_process_error_of_ge self h6
    rcases Nat.eq_zero_or_pos batch_size with hB | hB
    · subst hB
      refine ⟨rfl, rfl, ?_, fun h => absurd h6 (not_le.mpr h)⟩
      intro res hres
      have : res = [] := by
        have h0 : self.post_process_batch raw 0 c1 n1 scale pad img_cols img_rows
            = Except.ok [] := rfl
        rw [h0] at hres
        exact (Except.ok.inj hres).symm
      subst this
      exact ⟨rfl, fun b hb => absurd hb (Nat.not_lt_zero b)⟩
    · have hbatch : ∀ c n, self.post_process_batch raw batch_size c n scale pad img_cols img_rows
          = Except.error "xywhsc is not supported yet" := by
        intro c n
        unfold Yolo.post_process_batch
        simp only [herr]
        exact foldlM_set_error _ _ _ hB
      refine ⟨by rw [hbatch, hbatch], ?_, ?_, fun h => absurd h6 (not_le.mpr h)⟩
      · rw [hbatch]
        simp only [herr]
        obtain ⟨m, rfl⟩ : ∃ m, batch_size = m + 1 := ⟨batch_size - 1, by omega⟩
        rw [List.range_succ_eq_map, mapM_error]
      · intro res hres
        rw [hbatch] at hres
        cases hres
  · -- every slot succeeds
    have hlt : self.output_dim_.1 < 6 := not_le.mp h6
    let h : Nat → List Object := fun b =>
      match self.post_process (fun k => raw (b * self.output_dim_.1 * self.output_dim_.2 + k))
          (1 / 4) (9 / 20) scale pad img_cols img_rows with
      | Except.ok v => v
      | Except.error _ => []
    have hok : ∀ b, self.post_process
        (fun k => raw (b * self.output_dim_.1 * self.output_dim_.2 + k))
        (1 / 4) (9 / 20) scale pad img_cols img_rows = Except.ok (h b) := by
      intro b
      obtain ⟨objs, ho⟩ := post_process_ok_of_lt self hlt
        (fun k => raw (b * self.output_dim_.1 * self.output_dim_.2 + k))
        (1 / 4) (9 / 20) scale pad img_cols img_rows
      simp only [h, ho]
    have hbatch : ∀ c n, self.post_process_batch raw batch_size c n scale pad img_cols img_rows
        = Except.ok ((List.range batch_size).map h) := by
      intro c n
      unfold Yolo.post_process_batch
      simp only [hok]
      have := foldlM_set_ok h batch_size batch_size (le_refl _)
      simpa using this
    refine ⟨by rw [hbatch, hbatch], ?_, ?_, fun _ => ⟨_, hbatch c1 n1⟩⟩
    · rw [hbatch]
      simp only [hok]
      rw [mapM_ok]
    · intro res hres
      rw [hbatch] at hres
      have : res = (List.range batch_size).map h := (Except.ok.inj hres).symm
      subst this
      refine ⟨by simp, ?_⟩
      intro b hb
      rw [hok b]
      congr 1
      rw [List.getD_eq_getElem _ _ (by simpa using hb)]
      simp

/-! ## Packing -/

theorem split_img22 :
    split_into (List.replicate (3 * (2 * 2)) 0) 0 (2 * 2) (cvtColor_BGR2RGB img22)
      = [0, 0, 255, 255, 0, 255, 255, 0, 255, 255, 0, 0] := by
  decide

theorem split_img22_batch :
    (List.range [cvtColor_BGR2RGB img22, cvtColor_BGR2RGB img22].length).foldl
      (fun blob i =>
        split_into blob (2 * 2 * 3 * i) (2 * 2)
          ([cvtColor_BGR2RGB img22, cvtColor_BGR2RGB img22].getD i ⟨0, 0, []⟩))
      (List.replicate
        (3 * (2 * 2 * [cvtColor_BGR2RGB img22, cvtColor_BGR2RGB img22].length)) 0)
      = [0, 0, 255, 255, 0, 255, 255, 0, 255, 255, 0, 0,
         0, 0, 255, 255, 0, 255, 255, 0, 255, 255, 0, 0] := by
  decide

/-- C3: on the 2x2 image `img22` with `std = (1, 2, 4)`, `mean = (0, 1/2, 1)`, red/blue swap
and normalisation on, `blob_from_gpumat` returns 12 values laid out in planes, but the mean
and standard deviation applied at flat offset `k` are those of channel `k % 3`, not those of
the plane the sample belongs to: at offset 1 (channel 0, pixel 1) the result is `-1/4`,
where per-channel normalisation of that sample gives `0`.  The batch overload on two copies
of the image shows the same at offset `1 * 12 + 1`. -/
theorem blob_from_gpumat_normalises_by_offset_mod_three :
    blob_from_gpumat img22 ⟨1, 2, 4⟩ ⟨0, 1 / 2, 1⟩ true true
      = [0, -1 / 4, 0, 1, -1 / 4, 0, 1, -1 / 4, 0, 1, -1 / 4, -1 / 4] ∧
    expected_sample img22 ⟨1, 2, 4⟩ ⟨0, 1 / 2, 1⟩ true 0 1 = 0 ∧
    (blob_from_gpumat img22 ⟨1, 2, 4⟩ ⟨0, 1 / 2, 1⟩ true true).getD (0 * (2 * 2) + 1) 0
      ≠ expected_sample img22 ⟨1, 2, 4⟩ ⟨0, 1 / 2, 1⟩ true 0 1 ∧
    blob_from_gpumats [img22, img22] ⟨1, 2, 4⟩ ⟨0, 1 / 2, 1⟩ true true
      = [0, -1 / 4, 0, 1, -1 / 4, 0, 1, -1 / 4, 0, 1, -1 / 4, -1 / 4,
         0, -1 / 4, 0, 1, -1 / 4, 0, 1, -1 / 4, 0, 1, -1 / 4, -1 / 4] ∧
    (blob_from_gpumats [img22, img22] ⟨1, 2, 4⟩ ⟨0, 1 / 2, 1⟩ true true).getD
        (1 * (3 * (2 * 2)) + 0 * (2 * 2) + 1) 0
      ≠ expected_sample img22 ⟨1, 2, 4⟩ ⟨0, 1 / 2, 1⟩ true 0 1 := by
  have hb : blob_from_gpumat img22 ⟨1, 2, 4⟩ ⟨0, 1 / 2, 1⟩ true true
      = [0, -1 / 4, 0, 1, -1 / 4, 0, 1, -1 / 4, 0, 1, -1 / 4, -1 / 4] := by
    have h := split_img22
    unfold blob_from_gpumat
    simp only [if_true]
    have e1 : (cvtColor_BGR2RGB img22).rows = 2 := rfl
    have e2 : (cvtColor_BGR2RGB img22).cols = 2 := rfl
    rw [e1, e2, h]
    norm_num [convertTo, subtract, divide, mapChannels, Array3.get]
  have hbb : blob_from_gpumats [img22, img22] ⟨1, 2, 4⟩ ⟨0, 1 / 2, 1⟩ true true
      = [0, -1 / 4, 0, 1, -1 / 4, 0, 1, -1 / 4, 0, 1, -1 / 4, -1 / 4,
         0, -1 / 4, 0, 1, -1 / 4, 0, 1, -1 / 4, 0, 1, -1 / 4, -1 / 4] := by
    have h := split_img22_batch
    unfold blob_from_gpumats
    simp only [if_true, List.map_cons, List.map_nil, List.headD_cons]
    have e1 : (cvtColor_BGR2RGB img22).rows = 2 := rfl
    have e2 : (cvtColor_BGR2RGB img22).cols = 2 := rfl
    rw [e1, e2, h]
    norm_num [convertTo, subtract, divide, mapChannels, Array3.get]
  have he : expected_sample img22 ⟨1, 2, 4⟩ ⟨0, 1 / 2, 1⟩ true 0 1 = 0 := by
    norm_num [expected_sample, cvtColor_BGR2RGB, img22, GpuMat.plane, Vec3b.channel, Array3.get]
  refine ⟨hb, he, ?_, hbb, ?_⟩
  · rw [hb, he]
    norm_num
  · rw [hbb, he]
    norm_num

/-! ## Feature extractor resize -/

/-- C10: for a model input shape `(3, 224, 112)` (height 224, width 112)
`FeatureExtractor::predict` resizes to 112 rows and 224 columns, height and width exchanged,
while `Yolo::predict` builds its target size for the same shape as width 112, height 224. -/
theorem feature_extractor_resize_swaps_height_and_width :
    FeatureExtractor.resized_dims ⟨(3, 224, 112)⟩ = ⟨112, 224⟩ ∧
    (FeatureExtractor.resized_dims ⟨(3, 224, 112)⟩).rows ≠ 224 ∧
    (FeatureExtractor.resized_dims ⟨(3, 224, 112)⟩).cols ≠ 112 ∧
    resize_dims (Yolo.target_size 112 224) = ⟨224, 112⟩ := by
  decide


/-! ## Evaluation at concrete inputs -/

theorem post_process_of_decode_single (self : Yolo) (h6 : self.output_dim_.1 < 6)
    (raw : Nat → ℚ) (t nms scale : ℚ) (pad : Size) (img_cols img_rows : Nat) (r : Rect) (c : ℚ)
    (hd : self.decode raw t scale pad img_cols img_rows = ([r], [c])) :
    self.post_process raw t nms scale pad img_cols img_rows = Except.ok [⟨r, c⟩] := by
  unfold Yolo.post_process
  rw [if_neg (not_le.mpr h6), hd]
  simp [NMSBoxes_single]

theorem range_one : List.range 1 = [0] := rfl

/-- C2: a 1280x720 image letterboxed into 640x640 has scale 1/2 and borders left 0, top
140, so the box (100,100)-(200,200) lands on (50,190)-(100,240), the box of `raw_round_trip`.
Decoding that detection with the scale and padding `Yolo::predict` computes returns the
rectangle with corner (100,102) and extent 100x100: both y coordinates come back as 102 and
202, two pixels away from the original 100 and 200. -/
theorem predict_round_trip_shifts_y_by_two :
    (100 : ℚ) * Yolo.scale 640 640 1280 720 + (Yolo.border 640 640 1280 720).left
      = raw_round_trip 0 - raw_round_trip 2 / 2 ∧
    (100 : ℚ) * Yolo.scale 640 640 1280 720 + (Yolo.border 640 640 1280 720).top
      = raw_round_trip 1 - raw_round_trip 3 / 2 ∧
    (200 : ℚ) * Yolo.scale 640 640 1280 720 + (Yolo.border 640 640 1280 720).left
      = raw_round_trip 0 + raw_round_trip 2 / 2 ∧
    (200 : ℚ) * Yolo.scale 640 640 1280 720 + (Yolo.border 640 640 1280 720).top
      = raw_round_trip 1 + raw_round_trip 3 / 2 ∧
    yolo640.predict 1280 720 raw_round_trip (1 / 2) (1 / 2)
      = Except.ok [⟨⟨100, 102, 100, 100⟩, 3 / 4⟩] ∧
    (Rect.mk 100 102 100 100).y = 100 + 2 ∧
    (Rect.mk 100 102 100 100).bottom = 200 + 2 := by
  refine ⟨?_, ?_, ?_, ?_, ?_, by decide, by decide⟩
  · rw [scale_640_1280_720, border_640_1280_720]
    norm_num [raw_round_trip, buffer]
  · rw [scale_640_1280_720, border_640_1280_720]
    norm_num [raw_round_trip, buffer]
  · rw [scale_640_1280_720, border_640_1280_720]
    norm_num [raw_round_trip, buffer]
  · rw [scale_640_1280_720, border_640_1280_720]
    norm_num [raw_round_trip, buffer]
  · unfold Yolo.predict
    have e1 : ((yolo640.input_dim_.2.2 : Nat) : Int) = 640 := rfl
    have e2 : ((yolo640.input_dim_.2.1 : Nat) : Int) = 640 := rfl
    have e3 : ((1280 : Nat) : Int) = 1280 := rfl
    have e4 : ((720 : Nat) : Int) = 720 := rfl
    simp only [e1, e2, e3, e4, scale_640_1280_720, padding_640_1280_720]
    apply post_process_of_decode_single _ (by decide)
    simp only [Yolo.decode, yolo640, range_one, List.foldl_cons, List.foldl_nil,
      Yolo.decode_rect, raw_round_trip, buffer]
    norm_num [dnn.round, Rect.ofPoints]

/-- C4: with scale 1/2, padding (0, 139) and a 1280x720 original image, a candidate lying in
the top padding band decodes to a rectangle whose top edge is at y = -158, and a candidate to
the right of the letterboxed image decodes to a rectangle whose right edge is at x = 1380:
neither rectangle lies inside the image. -/
theorem post_process_rect_leaves_image :
    yolo640.post_process raw_above (1 / 2) (1 / 2) (1 / 2) ⟨0, 139⟩ 1280 720
      = Except.ok [⟨⟨540, -158, 200, 158⟩, 3 / 4⟩] ∧
    (Rect.mk 540 (-158) 200 158).y < 0 ∧
    yolo640.post_process raw_right (1 / 2) (1 / 2) (1 / 2) ⟨0, 139⟩ 1280 720
      = Except.ok [⟨⟨1280, 302, 100, 40⟩, 3 / 4⟩] ∧
    (1280 : Int) < (Rect.mk 1280 302 100 40).right := by
  refine ⟨?_, by decide, ?_, by decide⟩
  · apply post_process_of_decode_single _ (by decide)
    simp only [Yolo.decode, yolo640, range_one, List.foldl_cons, List.foldl_nil,
      Yolo.decode_rect, raw_above, buffer]
    norm_num [dnn.round, Rect.ofPoints]
  · apply post_process_of_decode_single _ (by decide)
    simp only [Yolo.decode, yolo640, range_one, List.foldl_cons, List.foldl_nil,
      Yolo.decode_rect, raw_right, buffer]
    norm_num [dnn.round, Rect.ofPoints]


/-! ## Instances of the general theorems -/

/-- Witness for C6: three candidates with confidences 0.25, 0.25 + 1e-6 and 0.125 against
the threshold 0.25; only the middle one becomes a candidate. -/
theorem decode_keeps_exactly_above_threshold_witness :
    ((Yolo.mk (3, 640, 640) (5, 3)).decode raw_threshold (1 / 4) 1 ⟨0, 0⟩ 640 640).2
      = [1 / 4 + 1 / 1000000] ∧
    (0 : Nat) ∉ ((List.range 3).filter fun i => decide (raw_threshold (4 * 3 + i) > 1 / 4)) ∧
    (1 : Nat) ∈ ((List.range 3).filter fun i => decide (raw_threshold (4 * 3 + i) > 1 / 4)) := by
  have h := decode_keeps_exactly_above_threshold (3, 640, 640) 3 raw_threshold (1 / 4) (1 / 2) 1
    ⟨0, 0⟩ 640 640
  refine ⟨?_, h.2.2.2.1 0 ?_, h.2.2.2.2.1 1 (by decide) ?_⟩
  · rw [h.1]
    have hr : List.range 3 = [0, 1, 2] := rfl
    simp only [hr]
    norm_num [List.filter, raw_threshold, buffer]
  · norm_num [raw_threshold, buffer]
  · norm_num [raw_threshold, buffer]

theorem decode_rect_pair (i : Nat) (hi : i < 2) :
    (Yolo.mk (3, 640, 640) (5, 2)).decode_rect raw_pair 1 ⟨0, 0⟩ 640 640 i
      = ⟨80, 80, 40, 40⟩ := by
  interval_cases i
  · simp only [Yolo.decode_rect, raw_pair, buffer]
    norm_num [dnn.round, Rect.ofPoints]
  · simp only [Yolo.decode_rect, raw_pair, buffer]
    norm_num [dnn.round, Rect.ofPoints]

/-- Witness for C8: two identical boxes with confidences 0.9 and 0.5, overlap 1, overlap
threshold 0.5; only the 0.9 box is returned. -/
theorem post_process_keeps_stronger_of_overlapping_pair_witness :
    ((List.range 2).filter fun k => decide (raw_pair (4 * 2 + k) > 1 / 4)) = [0, 1] ∧
    raw_pair (4 * 2 + 0) ≠ raw_pair (4 * 2 + 1) ∧
    iou ((Yolo.mk (3, 640, 640) (5, 2)).decode_rect raw_pair 1 ⟨0, 0⟩ 640 640 0)
        ((Yolo.mk (3, 640, 640) (5, 2)).decode_rect raw_pair 1 ⟨0, 0⟩ 640 640 1) = 1 ∧
    (Yolo.mk (3, 640, 640) (5, 2)).post_process raw_pair (1 / 4) (1 / 2) 1 ⟨0, 0⟩ 640 640
      = Except.ok [⟨⟨80, 80, 40, 40⟩, 9 / 10⟩] := by
  have h1 : ((List.range 2).filter fun k => decide (raw_pair (4 * 2 + k) > 1 / 4)) = [0, 1] := by
    have hr : List.range 2 = [0, 1] := rfl
    simp only [hr]
    norm_num [List.filter, raw_pair, buffer]
  have h2 : raw_pair (4 * 2 + 0) ≠ raw_pair (4 * 2 + 1) := by
    norm_num [raw_pair, buffer]
  have h3 : iou ((Yolo.mk (3, 640, 640) (5, 2)).decode_rect raw_pair 1 ⟨0, 0⟩ 640 640 0)
      ((Yolo.mk (3, 640, 640) (5, 2)).decode_rect raw_pair 1 ⟨0, 0⟩ 640 640 1) = 1 := by
    rw [decode_rect_pair 0 (by decide), decode_rect_pair 1 (by decide)]
    norm_num [iou, Rect.inter, Rect.area]
  have h := post_process_keeps_stronger_of_overlapping_pair (3, 640, 640) 2 0 1 raw_pair
    (1 / 4) (1 / 2) 1 ⟨0, 0⟩ 640 640 h1 h2 (by rw [h3]; norm_num)
  refine ⟨h1, h2, h3, ?_⟩
  rw [h, decode_rect_pair 0 (by decide), decode_rect_pair 1 (by decide)]
  norm_num [raw_pair, buffer]

/-- Witness for C9: a batch of two on a 5x1 output; thresholds (0.9, 0.9) and (0.1, 0.1)
give the same two-entry result. -/
theorem post_process_batch_ignores_caller_thresholds_witness :
    yolo640.post_process_batch (buffer [75, 215, 50, 50, 3 / 4, 75, 215, 50, 50, 1 / 8]) 2
        (9 / 10) (9 / 10) (1 / 2) ⟨0, 139⟩ 1280 720
      = yolo640.post_process_batch (buffer [75, 215, 50, 50, 3 / 4, 75, 215, 50, 50, 1 / 8]) 2
        (1 / 10) (1 / 10) (1 / 2) ⟨0, 139⟩ 1280 720 ∧
    ∃ res, yolo640.post_process_batch (buffer [75, 215, 50, 50, 3 / 4, 75, 215, 50, 50, 1 / 8]) 2
        (9 / 10) (9 / 10) (1 / 2) ⟨0, 139⟩ 1280 720 = Except.ok res ∧ res.length = 2 := by
  have h := post_process_batch_ignores_caller_thresholds yolo640
    (buffer [75, 215, 50, 50, 3 / 4, 75, 215, 50, 50, 1 / 8]) 2 (9 / 10) (9 / 10) (1 / 10) (1 / 10)
    (1 / 2) ⟨0, 139⟩ 1280 720
  obtain ⟨res, hres⟩ := h.2.2.2 (by decide)
  exact ⟨h.1, res, hres, (h.2.2.1 res hres).1⟩

end dnn
